import Mathlib

/-!
Verification of the lexical-hierarchy analysis
(crates/tinymist-query/src/syntax/lexical_hierarchy.rs).

The development shallowly embeds the worker of that file. Syntax trees are
external input produced by the parser; they are modelled by the inductive
type `STree` below, which records exactly the data the worker consumes:
the kind tag, the byte range, the literal text, the heading depth, whether
the typed-view cast of the node succeeds, and the children in document
order. Machine integers are modelled by `Nat`/`Int`; the single `as i16`
conversion in the source is `i16ofNat`. The mutually recursive traversal
is written as one function `check_node` over a small task union, with a
`Nat` fuel argument so that the recursion is structural and all concrete
runs evaluate in the kernel; the driver supplies fuel that is ample for
the bounded task-call depth of a tree.
-/

/-- Node kind tags. Modelled from the spec: the syntax tree is produced by
the external parser, whose kind enumeration is not part of this
repository. The constructors below cover every kind the worker inspects,
the keyword, trivia and error kinds it classifies via predicates, and a
catch-all `other`. -/
inductive SyntaxKind where
  | label | ident | equation | raw | blockComment | codeBlock | contentBlock
  | parenthesized | destructuring | args | array | dict | markup | heading
  | refMarker | letBinding | closure | params | moduleImport | lineComment
  | space | parbreak | forLoop | fieldAccess | named
  | inKw | letKw | importKw | forKw
  | leftBracket | leftBrace | leftParen | comma | colon | dot | eqOp
  | headingMarker | text | str | intLit | underscore | error | other
  deriving DecidableEq, Repr

/-- Modelled from the spec: trivia kinds of the external parser
(line comments, block comments, spaces and paragraph breaks). -/
def SyntaxKind.is_trivia : SyntaxKind → Bool
  | .lineComment | .blockComment | .space | .parbreak => true
  | _ => false

/-- Modelled from the spec: keyword kinds of the external parser
(restricted to the keywords appearing in this development). -/
def SyntaxKind.is_keyword : SyntaxKind → Bool
  | .inKw | .letKw | .importKw | .forKw => true
  | _ => false

/-- Modelled from the spec: the error-recovery kind of the external parser. -/
def SyntaxKind.is_error : SyntaxKind → Bool
  | .error => true
  | _ => false

/-- Modelled from the spec: kinds whose nodes cast to the external
expression view (`is::<ast::Expr>`). Trivia kinds do not cast. -/
def isExprKind : SyntaxKind → Bool
  | .ident | .label | .equation | .raw | .codeBlock | .contentBlock
  | .parenthesized | .array | .dict | .fieldAccess | .closure | .letBinding
  | .forLoop | .moduleImport | .heading | .text | .str | .intLit => true
  | _ => false

/-- Modelled from the spec: kinds whose nodes cast to the external pattern
view (`ast::Pattern`): a placeholder, a parenthesized pattern, a
destructuring pattern, or any expression. -/
def isPatternKind (k : SyntaxKind) : Bool :=
  k == .underscore || k == .parenthesized || k == .destructuring || isExprKind k

/-- An immutable syntax-tree node, as far as the worker observes it:
kind tag, byte range, literal/markup text, heading depth, whether the
typed-view cast succeeds on this node, and the children in document
order. -/
inductive STree where
  | mk (kind : SyntaxKind) (rstart rstop : Nat) (text : String) (depth : Nat)
       (castOk : Bool) (children : List STree)

def STree.kind : STree → SyntaxKind | .mk k _ _ _ _ _ _ => k
def STree.rstart : STree → Nat | .mk _ a _ _ _ _ _ => a
def STree.rstop : STree → Nat | .mk _ _ b _ _ _ _ => b
def STree.text : STree → String | .mk _ _ _ s _ _ _ => s
def STree.depth : STree → Nat | .mk _ _ _ _ d _ _ => d
def STree.castOk : STree → Bool | .mk _ _ _ _ _ c _ => c
def STree.children : STree → List STree | .mk _ _ _ _ _ _ cs => cs

mutual
/-- Number of nodes of a tree; used only to compute the driver fuel. -/
def STree.size : STree → Nat
  | .mk _ _ _ _ _ _ cs => 1 + STree.sizeList cs
def STree.sizeList : List STree → Nat
  | [] => 0
  | t :: ts => STree.size t + STree.sizeList ts
end

/-- `LexicalVarKind` of the source. -/
inductive LexicalVarKind where
  | ValRef | LabelRef | Label | BibKey | Variable | Function
  deriving DecidableEq, Repr

/-- `LexicalKind` of the source; the heading level is the `i16` payload. -/
inductive LexicalKind where
  | Heading (level : Int)
  | Var (kind : LexicalVarKind)
  | Block
  | LineComment
  | Space
  deriving DecidableEq, Repr

def LexicalKind.label : LexicalKind := .Var .Label
def LexicalKind.function : LexicalKind := .Var .Function
def LexicalKind.variable : LexicalKind := .Var .Variable

/-- `LexicalScopeKind` of the source. -/
inductive LexicalScopeKind where
  | Symbol | Braced
  deriving DecidableEq, Repr

def LexicalScopeKind.affect_symbol : LexicalScopeKind → Bool
  | .Symbol => true
  | .Braced => false

def LexicalScopeKind.affect_markup : LexicalScopeKind → Bool
  | .Symbol => false
  | .Braced => true

def LexicalScopeKind.affect_block : LexicalScopeKind → Bool
  | .Symbol => false
  | .Braced => true

def LexicalScopeKind.affect_expr : LexicalScopeKind → Bool
  | .Symbol => false
  | .Braced => true

def LexicalScopeKind.affect_heading : LexicalScopeKind → Bool
  | .Symbol => true
  | .Braced => true

/-- `LexicalInfo` of the source; `range` is split into `rstart`/`rstop`. -/
structure LexicalInfo where
  name : String
  kind : LexicalKind
  rstart : Nat
  rstop : Nat
  deriving DecidableEq, Repr

/-- `LexicalHierarchy` of the source: an entry with optional children. -/
inductive LexicalHierarchy where
  | mk (info : LexicalInfo) (children : Option (List LexicalHierarchy))

def LexicalHierarchy.info : LexicalHierarchy → LexicalInfo | .mk i _ => i
def LexicalHierarchy.children : LexicalHierarchy → Option (List LexicalHierarchy) | .mk _ c => c

/-- `IdentContext` of the source. -/
inductive IdentContext where
  | Ref | Func | Var | Params
  deriving DecidableEq, Repr

/-- One stack frame of the worker: a pending entry and the children closed
under it so far (`push` of the source appends at the right end). -/
abbrev Frame := LexicalInfo × List LexicalHierarchy

/-- The mutable state of `LexicalHierarchyWorker`. -/
structure WState where
  sk : LexicalScopeKind
  stack : List Frame
  ident_context : IdentContext

/-- Reasons a traversal stops exceptionally. `castFailed` is the
`anyhow` error raised when a typed-view cast fails; `fuelExhausted` is an
artifact of the fuel encoding (never reached at driver fuel);
`brokenStack` models the `unwrap` panics on an impossible stack shape
(never reached from the driver, whose sentinel keeps the stack populated). -/
inductive TraversalErr where
  | castFailed | fuelExhausted | brokenStack
  deriving DecidableEq, Repr

/-- The location data a `LinkedNode` carries beyond the bare node: the
kind and heading depth of the parent and the kind of the previous
non-trivia sibling. -/
structure Loc where
  parentKind : Option SyntaxKind
  parentDepth : Nat
  prevSib : Option SyntaxKind

/-- The `level as i16` conversion: wrap a natural number into the signed
16-bit range. -/
def i16ofNat (n : Nat) : Int :=
  let m := n % 65536
  if m < 32768 then (m : Int) else (m : Int) - 65536

/-- Free function `finish_hierarchy` of the source: wrap the accumulated
children into `Some` when non-empty and `None` otherwise. -/
def finish_hierarchy (sym : LexicalInfo) (curr : List LexicalHierarchy) : LexicalHierarchy :=
  .mk sym (if curr.isEmpty then none else some curr)

/-- Method `finish_hierarchy` of the worker: pop the top frame and append
its finished hierarchy to the children of the next frame. The source
`unwrap`s both frames; on a shorter stack (unreachable from the driver)
this is the identity. -/
def finishOne : List Frame → List Frame
  | (symbol, children) :: (pinfo, pchildren) :: rest =>
      (pinfo, pchildren ++ [finish_hierarchy symbol children]) :: rest
  | s => s

/-- Stop condition of the heading-break loop: the stack is exhausted, the
top frame is a heading of strictly smaller level, the top frame is a
block, or only one frame (the sentinel) remains. -/
def heading_break_stop (level : Int) : List Frame → Bool
  | [] => true
  | s@((w, _) :: _) =>
    (match w.kind with
     | LexicalKind.Heading lvl => decide (lvl < level)
     | _ => false)
    || (w.kind == LexicalKind.Block)
    || decide (s.length ≤ 1)

/-- The heading-break loop body, with an iteration budget. Each effective
iteration shortens the stack, so a budget of the stack length makes the
function agree with the unbounded loop of the source. -/
def headingBreakAux : Nat → Int → List Frame → List Frame
  | 0, _, s => s
  | n + 1, level, s =>
    if heading_break_stop level s then s
    else headingBreakAux n level (finishOne s)

/-- The `'heading_break` loop of `check_node`. -/
def headingBreak (level : Int) (s : List Frame) : List Frame :=
  headingBreakAux s.length level s

/-- Loop body for `while stack_height <= stack.len()` closing, with an
iteration budget. The `2 ≤ length` conjunct makes the no-frames-left case
(a panic in the source, unreachable from the driver where the target is
always at least 2) a no-op. -/
def closeFramesAux : Nat → Nat → List Frame → List Frame
  | 0, _, s => s
  | n + 1, target, s =>
    if target ≤ s.length ∧ 2 ≤ s.length then closeFramesAux n target (finishOne s) else s

/-- Close frames until the stack length is below `target`. -/
def closeFrames (target : Nat) (s : List Frame) : List Frame :=
  closeFramesAux s.length target s

/-- The driver loop `while stack.len() > 1 { finish_hierarchy() }`. -/
def drainAllAux : Nat → List Frame → List Frame
  | 0, s => s
  | n + 1, s => if 2 ≤ s.length then drainAllAux n (finishOne s) else s

def drainAll (s : List Frame) : List Frame :=
  drainAllAux s.length s

/-- The `SyntaxKind::LineComment` arm of `check_node`: if the top frame is
a space frame, pop it; if the frame below it is a comment frame, extend
the new range back to its start and pop it too; then push a fresh
line-comment frame. -/
def comment_merge (stack : List Frame) (nstart nstop : Nat) : List Frame :=
  match stack with
  | (w, _) :: rest =>
    if w.kind = LexicalKind.Space then
      match rest with
      | (w2, _) :: rest2 =>
        if w2.kind = LexicalKind.LineComment then
          (⟨"", .LineComment, w2.rstart, nstop⟩, []) :: rest2
        else
          (⟨"", .LineComment, nstart, nstop⟩, []) :: rest
      | [] => [(⟨"", .LineComment, nstart, nstop⟩, [])]
    else (⟨"", .LineComment, nstart, nstop⟩, []) :: stack
  | [] => [(⟨"", .LineComment, nstart, nstop⟩, [])]

/-- `enter_node`: override the ident context for the kinds that set one. -/
def enter_node (st : WState) (node : STree) : WState :=
  match node.kind with
  | .refMarker => { st with ident_context := .Ref }
  | .letBinding => { st with ident_context := .Ref }
  | .closure => { st with ident_context := .Func }
  | .params => { st with ident_context := .Params }
  | _ => st

/-- The previous-non-trivia-sibling kind after passing a child, as
`LinkedNode::prev_sibling` (which skips trivia) would report it. -/
def sibUpdate (prev : Option SyntaxKind) (c : STree) : Option SyntaxKind :=
  if c.kind.is_trivia then prev else some c.kind

/-- `children().find(p)` together with the previous-sibling kind of the
found child. -/
def findWithPrev (p : STree → Bool) : Option SyntaxKind → List STree →
    Option (Option SyntaxKind × STree)
  | _, [] => none
  | prev, c :: cs =>
    if p c then some (prev, c) else findWithPrev p (sibUpdate prev c) cs

/-- `children().rev().find(p)` (the last matching child in document
order) together with the previous-sibling kind of the found child. -/
def findLastWithPrev (p : STree → Bool) : Option SyntaxKind →
    Option (Option SyntaxKind × STree) → List STree → Option (Option SyntaxKind × STree)
  | _, acc, [] => acc
  | prev, acc, c :: cs =>
    findLastWithPrev p (sibUpdate prev c) (if p c then some (prev, c) else acc) cs

/-- `children().skip_while(kind != In).find(is Expr)`: the first
expression child at or after the `in` keyword. -/
def findExprAfterIn : Option SyntaxKind → List STree → Option (Option SyntaxKind × STree)
  | _, [] => none
  | prev, c :: cs =>
    if c.kind = SyntaxKind.inKw then
      findWithPrev (fun n => isExprKind n.kind) (sibUpdate prev c) cs
    else findExprAfterIn (sibUpdate prev c) cs

/-- The filter of the `SyntaxKind::Label` arm of `get_ident`: the label is
used as a value inside code when the previous non-trivia sibling is an
opening bracket, brace or parenthesis, a comma, a colon, or a keyword. -/
def label_in_code_context (prev : Option SyntaxKind) : Bool :=
  match prev with
  | some pk =>
    pk == .leftBracket || pk == .leftBrace || pk == .leftParen
      || pk == .comma || pk == .colon || pk.is_keyword
  | none => false

/-- `get_ident`: classify one node as a symbol entry, reject it, or fail
hard when a label/ident node does not cast to its typed view. -/
def get_ident (sk : LexicalScopeKind) (ictx : IdentContext) (loc : Loc) (node : STree) :
    Except TraversalErr (Option LexicalInfo) :=
  match node.kind with
  | .label =>
    if sk.affect_symbol then
      if label_in_code_context loc.prevSib then
        .ok none
      else if node.castOk then
        .ok (some ⟨node.text, LexicalKind.label, node.rstart, node.rstop⟩)
      else .error .castFailed
    else .ok none
  | .ident =>
    if sk.affect_symbol then
      if node.castOk then
        match ictx with
        | .Func => .ok (some ⟨node.text, LexicalKind.function, node.rstart, node.rstop⟩)
        | .Var => .ok (some ⟨node.text, LexicalKind.variable, node.rstart, node.rstop⟩)
        | .Params => .ok (some ⟨node.text, LexicalKind.variable, node.rstart, node.rstop⟩)
        | .Ref => .ok none
      else .error .castFailed
    else .ok none
  | .equation | .raw | .blockComment =>
    if sk.affect_markup then .ok (some ⟨"", .Block, node.rstart, node.rstop⟩) else .ok none
  | .codeBlock | .contentBlock =>
    if sk.affect_block then .ok (some ⟨"", .Block, node.rstart, node.rstop⟩) else .ok none
  | .parenthesized | .destructuring | .args | .array | .dict =>
    if sk.affect_expr then .ok (some ⟨"", .Block, node.rstart, node.rstop⟩) else .ok none
  | .markup =>
    if node.text = "" then .ok none
    else
      match loc.parentKind with
      | none => .ok none
      | some pk =>
        if pk = .heading ∧ sk.affect_heading then
          .ok (some ⟨node.text, .Heading (i16ofNat loc.parentDepth), node.rstart, node.rstop⟩)
        else .ok none
  | _ => .ok none

/-- The tasks of the traversal. `node` is `check_node`; `body` is the part
of `check_node` between `enter_node` and `exit_node`, given the symbol the
classifier produced; `nodeWith` is `check_node_with`; `seq` is the
`for child in node.children()` loop, carrying the parent kind/depth and
the running previous-non-trivia-sibling kind. -/
inductive WTask where
  | node (loc : Loc) (t : STree)
  | body (loc : Loc) (t : STree) (own_symbol : Option LexicalInfo)
  | nodeWith (loc : Loc) (t : STree) (ctx : IdentContext)
  | seq (pk : SyntaxKind) (pd : Nat) (prev : Option SyntaxKind) (ts : List STree)

/-- The recursive traversal of `LexicalHierarchyWorker`, fuelled so that
the recursion is structural. Errors carry the state, as the Rust `?`
propagation leaves `&mut self` in place. -/
def check_node : Nat → WState → WTask → WState × Option TraversalErr
  | 0, st, _ => (st, some .fuelExhausted)
  | Nat.succ fuel, st, task =>
    match task with
    | .node loc node =>
      match get_ident st.sk st.ident_context loc node with
      | .error e => (st, some e)
      | .ok own_symbol =>
        let checkpoint := st.ident_context
        match check_node fuel (enter_node st node) (.body loc node own_symbol) with
        | (st1, some e) => (st1, some e)
        | (st1, none) => ({ st1 with ident_context := checkpoint }, none)
    | .nodeWith loc node ctx =>
      let parent_context := st.ident_context
      match check_node fuel { st with ident_context := ctx } (.node loc node) with
      | (st1, e) => ({ st1 with ident_context := parent_context }, e)
    | .seq _ _ _ [] => (st, none)
    | .seq pk pd prev (c :: cs) =>
      match check_node fuel st (.node ⟨some pk, pd, prev⟩ c) with
      | (st1, some e) => (st1, some e)
      | (st1, none) => check_node fuel st1 (.seq pk pd (sibUpdate prev c) cs)
    | .body _ node own_symbol =>
      match own_symbol with
      | some symbol =>
        let st2 :=
          match symbol.kind with
          | .Heading level => { st with stack := headingBreak level st.stack }
          | _ => st
        let is_heading := match symbol.kind with | LexicalKind.Heading _ => true | _ => false
        let st3 := { st2 with stack := (symbol, []) :: st2.stack }
        let stack_height := st3.stack.length
        match (if node.kind = .moduleImport then (st3, none)
               else check_node fuel st3 (.seq node.kind node.depth none node.children)) with
        | (st4, some e) => (st4, some e)
        | (st4, none) =>
          if is_heading then
            ({ st4 with stack := closeFrames (stack_height + 1) st4.stack }, none)
          else
            ({ st4 with stack := closeFrames stack_height st4.stack }, none)
      | none =>
        match node.kind with
        | .lineComment =>
          ({ st with stack := comment_merge st.stack node.rstart node.rstop }, none)
        | .space =>
          ({ st with stack := (⟨"", .Space, node.rstart, node.rstop⟩, []) :: st.stack }, none)
        | .letBinding =>
          match findWithPrev (fun n => isPatternKind n.kind) none node.children with
          | some (ps, pat) =>
            if pat.kind = .closure then
              check_node fuel st (.nodeWith ⟨some node.kind, node.depth, ps⟩ pat .Ref)
            else
              match check_node fuel st (.nodeWith ⟨some node.kind, node.depth, ps⟩ pat .Var) with
              | (st1, some e) => (st1, some e)
              | (st1, none) =>
                match findLastWithPrev (fun n => isExprKind n.kind) none none node.children with
                | none => (st1, none)
                | some (ps2, body) =>
                  if pat.rstart ≥ body.rstart then (st1, none)
                  else check_node fuel st1 (.nodeWith ⟨some node.kind, node.depth, ps2⟩ body .Ref)
          | none =>
            match findLastWithPrev (fun n => isExprKind n.kind) none none node.children with
            | none => (st, none)
            | some (ps2, body) =>
              check_node fuel st (.nodeWith ⟨some node.kind, node.depth, ps2⟩ body .Ref)
        | .forLoop =>
          let iterF := findExprAfterIn none node.children
          match (match iterF with
                 | none => (st, none)
                 | some (psI, it) =>
                   check_node fuel st (.nodeWith ⟨some node.kind, node.depth, psI⟩ it .Ref)) with
          | (st1, some e) => (st1, some e)
          | (st1, none) =>
            match (match findWithPrev (fun n => isPatternKind n.kind) none node.children with
                   | none => (st1, none)
                   | some (psP, pat) =>
                     check_node fuel st1 (.nodeWith ⟨some node.kind, node.depth, psP⟩ pat .Var)) with
            | (st2, some e) => (st2, some e)
            | (st2, none) =>
              match findLastWithPrev (fun n => isExprKind n.kind) none none node.children with
              | none => (st2, none)
              | some (psB, body) =>
                match iterF with
                | some (_, it) =>
                  if it.rstart ≥ body.rstart then (st2, none)
                  else check_node fuel st2 (.nodeWith ⟨some node.kind, node.depth, psB⟩ body .Ref)
                | none =>
                  check_node fuel st2 (.nodeWith ⟨some node.kind, node.depth, psB⟩ body .Ref)
        | .closure =>
          match st.stack with
          | [] => (st, some .brokenStack)
          | topF :: _ =>
            let current := topF.2.length
            match (match node.children.head? with
                   | some fc =>
                     if fc.kind = .ident then
                       check_node fuel st (.nodeWith ⟨some node.kind, node.depth, none⟩ fc .Func)
                     else (st, none)
                   | none => (st, none)) with
            | (st1, some e) => (st1, some e)
            | (st1, none) =>
              match findLastWithPrev (fun n => isExprKind n.kind) none none node.children with
              | none => (st1, none)
              | some (psB, body) =>
                match st1.stack with
                | [] => (st1, some .brokenStack)
                | (tinfo, tcs) :: rest =>
                  match (if current = tcs.length then
                           some ((⟨"<anonymous>", LexicalKind.function, node.rstart, node.rstop⟩
                                  : LexicalInfo), tcs)
                         else
                           match tcs.getLast? with
                           | some h =>
                             some ({ h.info with rstart := node.rstart, rstop := node.rstop },
                                   tcs.dropLast)
                           | none => none) with
                  | none => (st1, some .brokenStack)
                  | some (symbol, tcs2) =>
                    let st2 := { st1 with stack := (symbol, []) :: (tinfo, tcs2) :: rest }
                    let stack_height := st2.stack.length
                    match check_node fuel st2
                        (.nodeWith ⟨some node.kind, node.depth, psB⟩ body .Ref) with
                    | (st3, some e) => (st3, some e)
                    | (st3, none) =>
                      ({ st3 with stack := closeFrames stack_height st3.stack }, none)
        | .fieldAccess =>
          match findWithPrev (fun n => isExprKind n.kind) none node.children with
          | none => (st, none)
          | some (ps, body) =>
            check_node fuel st (.nodeWith ⟨some node.kind, node.depth, ps⟩ body .Ref)
        | .named =>
          match (match findLastWithPrev (fun n => isExprKind n.kind) none none node.children with
                 | none => (st, none)
                 | some (ps, body) =>
                   check_node fuel st (.nodeWith ⟨some node.kind, node.depth, ps⟩ body .Ref)) with
          | (st1, some e) => (st1, some e)
          | (st1, none) =>
            if st1.ident_context = .Params then
              match findWithPrev (fun n => n.kind == SyntaxKind.ident) none node.children with
              | none => (st1, none)
              | some (ps, idn) =>
                check_node fuel st1 (.nodeWith ⟨some node.kind, node.depth, ps⟩ idn .Var)
            else (st1, none)
        | k =>
          if k.is_trivia || k.is_keyword || k.is_error then (st, none)
          else check_node fuel st (.seq node.kind node.depth none node.children)

/-- The location of the root node: no parent, no previous sibling. -/
def rootLoc : Loc := ⟨none, 0, none⟩

/-- The sentinel root frame pushed by the driver. -/
def sentinel : LexicalInfo := ⟨"deadbeef", .Heading (-1), 0, 0⟩

/-- The worker state the driver starts from. -/
def initState (sk : LexicalScopeKind) : WState := ⟨sk, [(sentinel, [])], .Ref⟩

/-- Fuel supplied by the driver; generous for the task-call depth of a
tree of this size. -/
def runFuel (t : STree) : Nat := 8 * STree.size t + 8

/-- The traversal the driver runs, before draining. -/
def runRoot (source : STree) (sk : LexicalScopeKind) : WState × Option TraversalErr :=
  check_node (runFuel source) (initState sk) (.node rootLoc source)

/-- `get_lexical_hierarchy`: push the sentinel, traverse, drain the stack,
and return the children of the sentinel, or no result when the traversal
failed. -/
def get_lexical_hierarchy (source : STree) (sk : LexicalScopeKind) :
    Option (List LexicalHierarchy) :=
  match runRoot source sk with
  | (st, e) =>
    match e, drainAll st.stack with
    | some _, _ => none
    | none, (_, children) :: _ => some children
    | none, [] => none

/-! ## Output invariants -/

/-- The kinds that can appear in a returned forest: the four documented
kinds (headings, the three produced named roles, blocks, comment runs)
together with whitespace entries. The three reserved roles are excluded. -/
def allowedKind : LexicalKind → Bool
  | .Var .ValRef => false
  | .Var .LabelRef => false
  | .Var .BibKey => false
  | _ => true

/-- The four documented output kinds of the specification: headings,
the produced named roles (function, variable, label), anonymous blocks
and comment runs. -/
def documentedKind : LexicalKind → Bool
  | .Heading _ => true
  | .Var .Label => true
  | .Var .Function => true
  | .Var .Variable => true
  | .Block => true
  | .LineComment => true
  | _ => false

/-- Every entry of the hierarchy has an allowed kind (in particular, no
reserved role ever occurs). -/
inductive KindsOk : LexicalHierarchy → Prop where
  | noChildren (info) : allowedKind info.kind = true → KindsOk (.mk info none)
  | withChildren (info) (l) : allowedKind info.kind = true →
      (∀ h ∈ l, KindsOk h) → KindsOk (.mk info (some l))

/-- The `children` field is never a present-but-empty container, at any
depth of the hierarchy. -/
inductive NoEmpty : LexicalHierarchy → Prop where
  | noChildren (info) : NoEmpty (.mk info none)
  | withChildren (info) (l) : l ≠ [] → (∀ h ∈ l, NoEmpty h) → NoEmpty (.mk info (some l))

def HierOk (h : LexicalHierarchy) : Prop := KindsOk h ∧ NoEmpty h

def FrameOk (f : Frame) : Prop :=
  allowedKind f.1.kind = true ∧ ∀ h ∈ f.2, HierOk h

def StackOk (s : List Frame) : Prop := ∀ f ∈ s, FrameOk f

/-- The symbol carried by a `body` task comes from the classifier, hence
has an allowed kind. -/
def TaskOk : WTask → Prop
  | .body _ _ (some sym) => allowedKind sym.kind = true
  | _ => True

theorem finish_hierarchy_ok {sym : LexicalInfo} {curr : List LexicalHierarchy}
    (hk : allowedKind sym.kind = true) (hc : ∀ h ∈ curr, HierOk h) :
    HierOk (finish_hierarchy sym curr) := by
  unfold finish_hierarchy
  cases curr with
  | nil => exact ⟨.noChildren _ hk, .noChildren _⟩
  | cons a l =>
    rw [if_neg (by simp)]
    refine ⟨.withChildren _ _ hk (fun h hh => (hc h hh).1),
            .withChildren _ _ (by simp) (fun h hh => (hc h hh).2)⟩

theorem finishOne_ok {s : List Frame} (h : StackOk s) : StackOk (finishOne s) := by
  match s with
  | [] => exact h
  | [f] => exact h
  | (sym, cs) :: (pinfo, pcs) :: rest =>
    have hTop : FrameOk (sym, cs) := h _ (by simp)
    have hSnd : FrameOk (pinfo, pcs) := h _ (by simp)
    intro f hf
    simp only [finishOne] at hf
    rcases List.mem_cons.1 hf with h1 | h2
    · subst h1
      refine ⟨hSnd.1, ?_⟩
      intro x hx
      rcases List.mem_append.1 hx with hx1 | hx2
      · exact hSnd.2 x hx1
      · have : x = finish_hierarchy sym cs := by simpa using hx2
        subst this
        exact finish_hierarchy_ok hTop.1 hTop.2
    · exact h _ (by simp [h2])

theorem headingBreakAux_ok : ∀ (n : Nat) (level : Int) (s : List Frame),
    StackOk s → StackOk (headingBreakAux n level s)
  | 0, _, _, h => h
  | n + 1, level, s, h => by
    unfold headingBreakAux
    split
    · exact h
    · exact headingBreakAux_ok n level _ (finishOne_ok h)

theorem headingBreak_ok {level : Int} {s : List Frame} (h : StackOk s) :
    StackOk (headingBreak level s) := headingBreakAux_ok _ _ _ h

theorem closeFramesAux_ok : ∀ (n target : Nat) (s : List Frame),
    StackOk s → StackOk (closeFramesAux n target s)
  | 0, _, _, h => h
  | n + 1, target, s, h => by
    unfold closeFramesAux
    split
    · exact closeFramesAux_ok n target _ (finishOne_ok h)
    · exact h

theorem closeFrames_ok {target : Nat} {s : List Frame} (h : StackOk s) :
    StackOk (closeFrames target s) := closeFramesAux_ok _ _ _ h

theorem drainAllAux_ok : ∀ (n : Nat) (s : List Frame),
    StackOk s → StackOk (drainAllAux n s)
  | 0, _, h => h
  | n + 1, s, h => by
    unfold drainAllAux
    split
    · exact drainAllAux_ok n _ (finishOne_ok h)
    · exact h

theorem drainAll_ok {s : List Frame} (h : StackOk s) : StackOk (drainAll s) :=
  drainAllAux_ok _ _ h

theorem comment_merge_ok {s : List Frame} (h : StackOk s) (a b : Nat) :
    StackOk (comment_merge s a b) := by
  have hNew : ∀ (x y : Nat), FrameOk ((⟨"", .LineComment, x, y⟩ : LexicalInfo), []) := by
    intro x y; exact ⟨rfl, by simp⟩
  rcases s with _ | ⟨⟨w, wcs⟩, rest⟩
  · intro f hf
    simp only [comment_merge, List.mem_singleton] at hf
    subst hf; exact hNew a b
  · rcases rest with _ | ⟨⟨w2, w2cs⟩, rest2⟩
    · simp only [comment_merge]
      split
      · intro f hf
        simp only [List.mem_singleton] at hf
        subst hf; exact hNew a b
      · intro f hf
        rcases List.mem_cons.1 hf with h1 | h2
        · subst h1; exact hNew a b
        · exact h _ h2
    · simp only [comment_merge]
      split
      · split
        · intro f hf
          rcases List.mem_cons.1 hf with h1 | h2
          · subst h1; exact hNew _ b
          · exact h _ (by simp [h2])
        · intro f hf
          rcases List.mem_cons.1 hf with h1 | h2
          · subst h1; exact hNew a b
          · exact h _ (by simp [h2])
      · intro f hf
        rcases List.mem_cons.1 hf with h1 | h2
        · subst h1; exact hNew a b
        · exact h _ h2

theorem get_ident_ok {sk : LexicalScopeKind} {ictx : IdentContext} {loc : Loc}
    {node : STree} {info : LexicalInfo}
    (h : get_ident sk ictx loc node = .ok (some info)) : allowedKind info.kind = true := by
  unfold get_ident at h
  repeat' split at h
  all_goals simp_all [LexicalKind.label, LexicalKind.function, LexicalKind.variable]
  all_goals (subst h; rfl)

theorem enter_node_stack (st : WState) (node : STree) :
    (enter_node st node).stack = st.stack := by
  unfold enter_node
  split <;> rfl

theorem KindsOk.info_allowed {h : LexicalHierarchy} (hk : KindsOk h) :
    allowedKind h.info.kind = true := by
  cases hk <;> simpa [LexicalHierarchy.info]

/-- The traversal preserves the stack invariant: every frame of the stack
keeps an allowed kind and well-formed pending children. -/
theorem check_node_ok : ∀ (fuel : Nat) (task : WTask) (st : WState),
    StackOk st.stack → TaskOk task → StackOk (check_node fuel st task).1.stack := by
  intro fuel
  induction fuel with
  | zero => intro task st h _; exact h
  | succ fuel ih =>
    intro task st hS hT
    cases task with
    | node loc node =>
      simp only [check_node]
      cases hgi : get_ident st.sk st.ident_context loc node with
      | error e => exact hS
      | ok own_symbol =>
        rcases hI : check_node fuel (enter_node st node) (.body loc node own_symbol)
          with ⟨st1, e1⟩
        have hEnter : StackOk (enter_node st node).stack := by
          rw [enter_node_stack]; exact hS
        have hTOk : TaskOk (.body loc node own_symbol) := by
          cases own_symbol with
          | none => trivial
          | some sym => exact get_ident_ok hgi
        have hRes : StackOk st1.stack := by
          have := ih (.body loc node own_symbol) (enter_node st node) hEnter hTOk
          rwa [hI] at this
        simp only [hI]
        cases e1 with
        | none => exact hRes
        | some e => exact hRes
    | nodeWith loc node ctx =>
      simp only [check_node]
      rcases hI : check_node fuel { st with ident_context := ctx } (.node loc node)
        with ⟨st1, e1⟩
      have hRes : StackOk st1.stack := by
        have := ih (.node loc node) { st with ident_context := ctx } hS trivial
        rwa [hI] at this
      exact hRes
    | seq pk pd prev ts =>
      cases ts with
      | nil => exact hS
      | cons c cs =>
        simp only [check_node]
        rcases hI : check_node fuel st (.node ⟨some pk, pd, prev⟩ c) with ⟨st1, e1⟩
        have hRes : StackOk st1.stack := by
          have := ih (.node ⟨some pk, pd, prev⟩ c) st hS trivial
          rwa [hI] at this
        cases e1 with
        | some e => exact hRes
        | none => exact ih (.seq pk pd (sibUpdate prev c) cs) st1 hRes trivial
    | body loc node own_symbol =>
      cases own_symbol with
      | some symbol =>
        have hSym : allowedKind symbol.kind = true := hT
        have hPush : ∀ s, StackOk s → StackOk ((symbol, []) :: s) := by
          intro s hs f hf
          rcases List.mem_cons.1 hf with h1 | h2
          · subst h1; exact ⟨hSym, by simp⟩
          · exact hs _ h2
        simp only [check_node]
        cases hsymk : symbol.kind with
        | Heading level =>
          split
          next st4 e4 heq =>
            split at heq
            · exact absurd heq (by simp)
            · have h5 : StackOk (st4, some e4).1.stack := by
                rw [← heq]
                exact ih _ _ (hPush _ (headingBreak_ok hS)) trivial
              exact h5
          next st4 heq =>
            have h4 : StackOk st4.stack := by
              have h5 : StackOk (st4, (none : Option TraversalErr)).1.stack := by
                split at heq
                · rw [← heq]
                  exact hPush _ (headingBreak_ok hS)
                · rw [← heq]
                  exact ih _ _ (hPush _ (headingBreak_ok hS)) trivial
              exact h5
            split <;> exact closeFrames_ok h4
        | Var vk =>
          split
          next st4 e4 heq =>
            split at heq
            · exact absurd heq (by simp)
            · have h5 : StackOk (st4, some e4).1.stack := by
                rw [← heq]
                exact ih _ _ (hPush _ hS) trivial
              exact h5
          next st4 heq =>
            have h4 : StackOk st4.stack := by
              have h5 : StackOk (st4, (none : Option TraversalErr)).1.stack := by
                split at heq
                · rw [← heq]
                  exact hPush _ hS
                · rw [← heq]
                  exact ih _ _ (hPush _ hS) trivial
              exact h5
            split <;> exact closeFrames_ok h4
        | Block =>
          split
          next st4 e4 heq =>
            split at heq
            · exact absurd heq (by simp)
            · have h5 : StackOk (st4, some e4).1.stack := by
                rw [← heq]
                exact ih _ _ (hPush _ hS) trivial
              exact h5
          next st4 heq =>
            have h4 : StackOk st4.stack := by
              have h5 : StackOk (st4, (none : Option TraversalErr)).1.stack := by
                split at heq
                · rw [← heq]
                  exact hPush _ hS
                · rw [← heq]
                  exact ih _ _ (hPush _ hS) trivial
              exact h5
            split <;> exact closeFrames_ok h4
        | LineComment =>
          split
          next st4 e4 heq =>
            split at heq
            · exact absurd heq (by simp)
            · have h5 : StackOk (st4, some e4).1.stack := by
                rw [← heq]
                exact ih _ _ (hPush _ hS) trivial
              exact h5
          next st4 heq =>
            have h4 : StackOk st4.stack := by
              have h5 : StackOk (st4, (none : Option TraversalErr)).1.stack := by
                split at heq
                · rw [← heq]
                  exact hPush _ hS
                · rw [← heq]
                  exact ih _ _ (hPush _ hS) trivial
              exact h5
            split <;> exact closeFrames_ok h4
        | Space =>
          split
          next st4 e4 heq =>
            split at heq
            · exact absurd heq (by simp)
            · have h5 : StackOk (st4, some e4).1.stack := by
                rw [← heq]
                exact ih _ _ (hPush _ hS) trivial
              exact h5
          next st4 heq =>
            have h4 : StackOk st4.stack := by
              have h5 : StackOk (st4, (none : Option TraversalErr)).1.stack := by
                split at heq
                · rw [← heq]
                  exact hPush _ hS
                · rw [← heq]
                  exact ih _ _ (hPush _ hS) trivial
              exact h5
            split <;> exact closeFrames_ok h4
      | none =>
        simp only [check_node]
        split
        · -- line comment
          exact comment_merge_ok hS _ _
        · -- space
          intro f hf
          rcases List.mem_cons.1 hf with h1 | h2
          · subst h1; exact ⟨rfl, by simp⟩
          · exact hS _ h2
        · -- let binding
          split
          next ps pat heq =>
            split
            · exact ih _ _ hS trivial
            · split
              next st1 e1 heq2 =>
                have h5 : StackOk (st1, some e1).1.stack := by
                  rw [← heq2]; exact ih _ _ hS trivial
                exact h5
              next st1 heq2 =>
                have h1 : StackOk st1.stack := by
                  have h5 : StackOk (st1, (none : Option TraversalErr)).1.stack := by
                    rw [← heq2]; exact ih _ _ hS trivial
                  exact h5
                split
                next heq3 => exact h1
                next ps2 body heq3 =>
                  split
                  · exact h1
                  · exact ih _ _ h1 trivial
          next heq =>
            split
            next heq3 => exact hS
            next ps2 body heq3 => exact ih _ _ hS trivial
        · -- for loop
          split
          next st1 e1 heq =>
            have h5 : StackOk (st1, some e1).1.stack := by
              rw [← heq]
              split
              next heq2 => exact hS
              next psI it heq2 => exact ih _ _ hS trivial
            exact h5
          next st1 heq =>
            have h1 : StackOk st1.stack := by
              have h5 : StackOk (st1, (none : Option TraversalErr)).1.stack := by
                rw [← heq]
                split
                next heq2 => exact hS
                next psI it heq2 => exact ih _ _ hS trivial
              exact h5
            split
            next st2 e2 heq2 =>
              have h5 : StackOk (st2, some e2).1.stack := by
                rw [← heq2]
                split
                next heq3 => exact h1
                next psP pat heq3 => exact ih _ _ h1 trivial
              exact h5
            next st2 heq2 =>
              have h2 : StackOk st2.stack := by
                have h5 : StackOk (st2, (none : Option TraversalErr)).1.stack := by
                  rw [← heq2]
                  split
                  next heq3 => exact h1
                  next psP pat heq3 => exact ih _ _ h1 trivial
                exact h5
              split
              next heq3 => exact h2
              next psB body heq3 =>
                split
                next psI it heq4 =>
                  split
                  · exact h2
                  · exact ih _ _ h2 trivial
                next heq4 => exact ih _ _ h2 trivial
        · -- closure
          split
          next heq => exact hS
          next topF tail heq =>
            split
            next st1 e1 heq2 =>
              have h5 : StackOk (st1, some e1).1.stack := by
                rw [← heq2]
                split
                next fc heq3 =>
                  split
                  · exact ih _ _ hS trivial
                  · exact hS
                next heq3 => exact hS
              exact h5
            next st1 heq2 =>
              have h1 : StackOk st1.stack := by
                have h5 : StackOk (st1, (none : Option TraversalErr)).1.stack := by
                  rw [← heq2]
                  split
                  next fc heq3 =>
                    split
                    · exact ih _ _ hS trivial
                    · exact hS
                  next heq3 => exact hS
                exact h5
              split
              next heq3 => exact h1
              next psB body heq3 =>
                split
                next heq4 => exact h1
                next tinfo tcs rest heq4 =>
                  split
                  next heq5 => exact h1
                  next symbol tcs2 heq5 =>
                    have hFrame : FrameOk (tinfo, tcs) :=
                      h1 _ (by rw [heq4]; exact List.mem_cons_self _ _)
                    have hSyOk : allowedKind symbol.kind = true ∧ (∀ x ∈ tcs2, HierOk x) := by
                      split at heq5
                      · injection heq5 with h6
                        injection h6 with h7 h8
                        subst h7; subst h8
                        exact ⟨rfl, hFrame.2⟩
                      · split at heq5
                        next hl heq6 =>
                          injection heq5 with h6
                          injection h6 with h7 h8
                          subst h7; subst h8
                          have hm : hl ∈ tcs := by
                            have hne : tcs ≠ [] := by rintro rfl; simp at heq6
                            have := List.getLast?_eq_getLast tcs hne
                            rw [this] at heq6
                            exact (Option.some_inj.1 heq6) ▸ List.getLast_mem _
                          constructor
                          · exact ((hFrame.2 hl hm).1).info_allowed
                          · intro x hx
                            exact hFrame.2 x ((List.dropLast_prefix tcs).subset hx)
                        next heq6 => exact absurd heq5 (by simp)
                    have hPush2 : StackOk ((symbol, []) :: (tinfo, tcs2) :: rest) := by
                      intro f hf
                      rcases List.mem_cons.1 hf with h1f | h2f
                      · subst h1f; exact ⟨hSyOk.1, by simp⟩
                      · rcases List.mem_cons.1 h2f with h3f | h4f
                        · subst h3f; exact ⟨hFrame.1, hSyOk.2⟩
                        · exact h1 _ (by rw [heq4]; exact List.mem_cons_of_mem _ h4f)
                    split
                    next st3 e3 heq6 =>
                      have h5 : StackOk (st3, some e3).1.stack := by
                        rw [← heq6]; exact ih _ _ hPush2 trivial
                      exact h5
                    next st3 heq6 =>
                      have h3 : StackOk st3.stack := by
                        have h5 : StackOk (st3, (none : Option TraversalErr)).1.stack := by
                          rw [← heq6]; exact ih _ _ hPush2 trivial
                        exact h5
                      exact closeFrames_ok h3
        · -- field access
          split
          next heq => exact hS
          next ps body heq => exact ih _ _ hS trivial
        · -- named argument
          split
          next st1 e1 heq =>
            have h5 : StackOk (st1, some e1).1.stack := by
              rw [← heq]
              split
              next heq2 => exact hS
              next ps body heq2 => exact ih _ _ hS trivial
            exact h5
          next st1 heq =>
            have h1 : StackOk st1.stack := by
              have h5 : StackOk (st1, (none : Option TraversalErr)).1.stack := by
                rw [← heq]
                split
                next heq2 => exact hS
                next ps body heq2 => exact ih _ _ hS trivial
              exact h5
            split
            · split
              next heq2 => exact h1
              next ps idn heq2 => exact ih _ _ h1 trivial
            · exact h1
        · -- trivia, keyword, error, or default recursion
          split
          · exact hS
          · exact ih _ _ hS trivial

theorem initState_ok (sk : LexicalScopeKind) : StackOk (initState sk).stack := by
  intro f hf
  simp only [initState, List.mem_singleton] at hf
  subst hf
  exact ⟨rfl, by simp⟩

/-- Every hierarchy of a returned forest satisfies the combined
invariant. -/
theorem glh_frames {t : STree} {sk : LexicalScopeKind} {f : List LexicalHierarchy}
    (h : get_lexical_hierarchy t sk = some f) : ∀ x ∈ f, HierOk x := by
  unfold get_lexical_hierarchy at h
  rcases hR : runRoot t sk with ⟨st, e⟩
  simp only [hR] at h
  have hSt : StackOk st.stack := by
    have h2 := check_node_ok (runFuel t) (.node rootLoc t) (initState sk)
      (initState_ok sk) trivial
    unfold runRoot at hR
    rw [hR] at h2
    exact h2
  have hD : StackOk (drainAll st.stack) := drainAll_ok hSt
  cases e with
  | some err => simp at h
  | none =>
    rcases hDA : drainAll st.stack with _ | ⟨⟨i, children⟩, rest⟩
    · rw [hDA] at h
      simp at h
    · rw [hDA] at h
      simp only [Option.some.injEq] at h
      subst h
      have hMem := hD (i, children) (by rw [hDA]; exact List.mem_cons_self _ _)
      exact hMem.2

/-! ## Facts about the heading-break loop -/

theorem finishOne_length {s : List Frame} (h2 : 2 ≤ s.length) :
    (finishOne s).length + 1 = s.length := by
  match s with
  | a :: b :: rest => simp [finishOne]
  | [] => simp at h2
  | [a] => simp at h2

theorem headingBreakAux_stop : ∀ (n : Nat) (level : Int) (s : List Frame), s.length ≤ n →
    heading_break_stop level (headingBreakAux n level s) = true
  | 0, level, s, h => by
    have hnil : s = [] := List.eq_nil_of_length_eq_zero (Nat.le_zero.1 h)
    subst hnil; rfl
  | n + 1, level, s, h => by
    unfold headingBreakAux
    split
    next hstop => exact hstop
    next hstop =>
      apply headingBreakAux_stop n level
      have hne : s ≠ [] := by
        rintro rfl
        exact hstop rfl
      have h2 : 2 ≤ s.length := by
        rcases s with _ | ⟨a, s2⟩
        · exact absurd rfl hne
        · by_contra hlt
          push_neg at hlt
          have hs2 : s2 = [] := by
            rcases s2 with _ | ⟨b, s3⟩
            · rfl
            · simp at hlt
              omega
          subst hs2
          apply hstop
          unfold heading_break_stop
          simp
      have hfl := finishOne_length h2
      omega

theorem headingBreakAux_iterate : ∀ (n : Nat) (level : Int) (s : List Frame),
    ∃ k, headingBreakAux n level s = finishOne^[k] s
  | 0, _, s => ⟨0, rfl⟩
  | n + 1, level, s => by
    unfold headingBreakAux
    split
    · exact ⟨0, rfl⟩
    · obtain ⟨k, hk⟩ := headingBreakAux_iterate n level (finishOne s)
      exact ⟨k + 1, by rw [hk, Function.iterate_succ_apply]⟩

/-! ## Concrete input trees -/

/-- A markup heading node of the given depth with its markup text child. -/
def hNode (d a b : Nat) (nm : String) : STree :=
  .mk .heading a b "" d true [.mk .markup (a + 1) (b - 1) nm 0 true []]

/-- Five top-level headings of levels 1, 2, 2, 1, 3. -/
def c1Headings : STree := .mk .markup 0 50 "" 0 true
  [hNode 1 0 10 "a", hNode 2 10 20 "b", hNode 2 20 30 "c", hNode 1 30 40 "d",
   hNode 3 40 50 "e"]

/-- A level-1 heading followed by a code block that contains another
level-1 heading. -/
def c1Scoped : STree := .mk .markup 0 40 "" 0 true
  [hNode 1 0 10 "a", .mk .codeBlock 10 30 "" 0 true [hNode 1 12 28 "b"]]

/-- A closure whose body holds an identifier node that fails its
typed-view cast. -/
def c2BadDeep : STree := .mk .markup 0 9 "" 0 true
  [.mk .closure 0 9 "" 0 true [.mk .ident 1 2 "x" 0 false []]]

/-- A lone whitespace token at the top level. -/
def c3SpaceTree : STree := .mk .markup 0 5 "" 0 true [.mk .space 3 4 "" 0 true []]

/-- Claim C1: when the classifier produces a heading entry, the builder
closes open frames from the top of the stack until the top frame is a
block frame, or a heading frame of strictly smaller level, or only the
sentinel frame remains (formally: the heading-break loop yields an
iterate of the frame-closing primitive whose result satisfies that stop
condition); for top-level headings with levels [1,2,2,1,3], the first
level-1 heading contains the two level-2 headings as siblings and the
level-3 heading nests under the second level-1 heading; and a
block-classified node between two headings prevents the later heading
(inside the block) from closing into the heading that precedes the
block. -/
theorem c1_heading_nesting :
    (∀ (level : Int) (s : List Frame),
        heading_break_stop level (headingBreak level s) = true
        ∧ ∃ k, headingBreak level s = finishOne^[k] s)
    ∧ get_lexical_hierarchy c1Headings .Symbol = some
        [.mk ⟨"a", .Heading 1, 1, 9⟩ (some
           [.mk ⟨"b", .Heading 2, 11, 19⟩ none, .mk ⟨"c", .Heading 2, 21, 29⟩ none]),
         .mk ⟨"d", .Heading 1, 31, 39⟩ (some [.mk ⟨"e", .Heading 3, 41, 49⟩ none])]
    ∧ get_lexical_hierarchy c1Scoped .Braced = some
        [.mk ⟨"a", .Heading 1, 1, 9⟩ (some
           [.mk ⟨"", .Block, 10, 30⟩ (some [.mk ⟨"b", .Heading 1, 13, 27⟩ none])])] := by
  refine ⟨fun level s =>
      ⟨headingBreakAux_stop _ _ _ le_rfl, headingBreakAux_iterate _ _ _⟩, ?_, ?_⟩
  · have hf : runFuel c1Headings = 96 := by
      simp [runFuel, STree.size, STree.sizeList, c1Headings, hNode]
    simp only [get_lexical_hierarchy, runRoot, hf]
    rfl
  · have hf : runFuel c1Scoped = 56 := by
      simp [runFuel, STree.size, STree.sizeList, c1Scoped, hNode]
    simp only [get_lexical_hierarchy, runRoot, hf]
    rfl

/-- Claim C2: a label or identifier node whose typed-view cast fails (under
the configuration that classifies identifiers) makes the classifier raise
a hard error, any traversal error makes `get_lexical_hierarchy` return no
result rather than a partial forest, and the concrete malformed tree
propagates its nested failure to a `none` result. -/
theorem c2_cast_failure_aborts :
    (∀ (t : STree) (sk : LexicalScopeKind) (st : WState) (e : TraversalErr),
        runRoot t sk = (st, some e) → get_lexical_hierarchy t sk = none)
    ∧ (∀ (ictx : IdentContext) (loc : Loc) (a b : Nat) (s : String) (d : Nat)
        (cs : List STree),
        get_ident .Symbol ictx loc (.mk .ident a b s d false cs) = .error .castFailed)
    ∧ (∀ (ictx : IdentContext) (loc : Loc) (a b : Nat) (s : String) (d : Nat)
        (cs : List STree),
        label_in_code_context loc.prevSib = false →
        get_ident .Symbol ictx loc (.mk .label a b s d false cs) = .error .castFailed)
    ∧ get_lexical_hierarchy c2BadDeep .Symbol = none := by
  refine ⟨?_, ?_, ?_, ?_⟩
  · intro t sk st e h
    unfold get_lexical_hierarchy
    simp only [h]
  · intro ictx loc a b s d cs
    rfl
  · intro ictx loc a b s d cs h
    simp [get_ident, STree.kind, STree.castOk, h, LexicalScopeKind.affect_symbol]
  · have hf : runFuel c2BadDeep = 32 := by
      simp [runFuel, STree.size, STree.sizeList, c2BadDeep]
    simp only [get_lexical_hierarchy, runRoot, hf]
    rfl

/-- Claim C2 witness: concrete instances discharging the hypotheses. -/
theorem c2_cast_failure_aborts_witness :
    get_lexical_hierarchy c2BadDeep .Symbol = none
    ∧ get_ident .Symbol .Ref rootLoc (.mk .label 0 3 "l" 0 false []) = .error .castFailed := by
  constructor
  · apply c2_cast_failure_aborts.1 c2BadDeep .Symbol
      ⟨.Symbol, [(sentinel, [])], .Func⟩ .castFailed
    have hf : runFuel c2BadDeep = 32 := by
      simp [runFuel, STree.size, STree.sizeList, c2BadDeep]
    simp only [runRoot, hf]
    rfl
  · exact c2_cast_failure_aborts.2.2.1 .Ref rootLoc 0 3 "l" 0 [] rfl

/-- Claim C3: in every returned forest, the `children` field of a node is
`none` exactly when the node has no nested entries; a present-but-empty
children container never occurs, at any depth. -/
theorem c3_children_none_iff_empty :
    ∀ (t : STree) (sk : LexicalScopeKind) (f : List LexicalHierarchy),
      get_lexical_hierarchy t sk = some f → ∀ x ∈ f, NoEmpty x := by
  intro t sk f h x hx
  exact (glh_frames h x hx).2

/-- Claim C3 witness: the invariant holds of the concrete output for a
lone-space document. -/
theorem c3_children_none_iff_empty_witness :
    NoEmpty (.mk ⟨"", .Space, 3, 4⟩ none) := by
  apply c3_children_none_iff_empty c3SpaceTree .Symbol
      [.mk ⟨"", .Space, 3, 4⟩ none] ?_ _ (List.mem_singleton.2 rfl)
  have hf : runFuel c3SpaceTree = 24 := by
    simp [runFuel, STree.size, STree.sizeList, c3SpaceTree]
  simp only [get_lexical_hierarchy, runRoot, hf]
  rfl

/-- Two line comments with plain text between them (text pushes no frame):
comment, newline space, text, comment. -/
def c4TextTree : STree := .mk .markup 0 11 "" 0 true
  [.mk .lineComment 0 4 "" 0 true [], .mk .space 4 5 "" 0 true [],
   .mk .text 5 7 "xx" 0 true [], .mk .lineComment 7 11 "" 0 true []]

/-- Two adjacent line comments separated by a single newline space. -/
def c4AdjTree : STree := .mk .markup 0 9 "" 0 true
  [.mk .lineComment 0 4 "" 0 true [], .mk .space 4 5 "" 0 true [],
   .mk .lineComment 5 9 "" 0 true []]

/-- Two line comments separated by a markup paragraph break (a blank
line in markup). -/
def c4ParTree : STree := .mk .markup 0 10 "" 0 true
  [.mk .lineComment 0 4 "" 0 true [], .mk .parbreak 4 6 "" 0 true [],
   .mk .lineComment 6 10 "" 0 true []]

/-- Two line comments separated by two whitespace tokens. -/
def c4TwoTree : STree := .mk .markup 0 10 "" 0 true
  [.mk .lineComment 0 4 "" 0 true [], .mk .space 4 5 "" 0 true [],
   .mk .space 5 6 "" 0 true [], .mk .lineComment 6 10 "" 0 true []]

/-- Claim C4 counterexample: plain text between two line comments does not
prevent merging — the two comments around the intervening text collapse
into a single comment-run entry spanning from the first comment start to
the last comment end, instead of the two separate entries the claim
requires. -/
theorem c4_comment_merge_counterexample :
    get_lexical_hierarchy c4TextTree .Symbol
      = some [.mk ⟨"", .LineComment, 0, 11⟩ none] := by
  have hf : runFuel c4TextTree = 48 := by
    simp [runFuel, STree.size, STree.sizeList, c4TextTree]
  simp only [get_lexical_hierarchy, runRoot, hf]
  rfl

/-- Claim C4 (amended): a new line comment merges exactly when the top of
the stack is a whitespace frame directly above a comment-run frame, the
merged entry spanning from the earlier run start to the new comment end;
adjacent comments separated by one whitespace token therefore merge, and
a paragraph break or a second whitespace token between two comments
prevents merging, yielding two separate comment-run entries. -/
theorem c4_comment_merge :
    (∀ (fuel : Nat) (sk : LexicalScopeKind) (ctx : IdentContext) (loc : Loc)
        (n1 : String) (c d : Nat) (cs1 : List LexicalHierarchy)
        (n2 : String) (e f : Nat) (cs2 : List LexicalHierarchy) (rest : List Frame)
        (la lb : Nat) (ltx : String) (ld : Nat) (lco : Bool) (lch : List STree),
        check_node (fuel + 2)
            ⟨sk, (⟨n1, .Space, c, d⟩, cs1) :: (⟨n2, .LineComment, e, f⟩, cs2) :: rest, ctx⟩
            (.node loc (.mk .lineComment la lb ltx ld lco lch))
          = (⟨sk, (⟨"", .LineComment, e, lb⟩, []) :: rest, ctx⟩, none))
    ∧ get_lexical_hierarchy c4AdjTree .Symbol
        = some [.mk ⟨"", .LineComment, 0, 9⟩ none]
    ∧ get_lexical_hierarchy c4ParTree .Symbol
        = some [.mk ⟨"", .LineComment, 0, 4⟩ (some [.mk ⟨"", .LineComment, 6, 10⟩ none])]
    ∧ get_lexical_hierarchy c4TwoTree .Symbol
        = some [.mk ⟨"", .LineComment, 0, 4⟩ (some
            [.mk ⟨"", .Space, 4, 5⟩ (some [.mk ⟨"", .LineComment, 6, 10⟩ none])])] := by
  refine ⟨?_, ?_, ?_, ?_⟩
  · intro fuel sk ctx loc n1 c d cs1 n2 e f cs2 rest la lb ltx ld lco lch
    rfl
  · have hf : runFuel c4AdjTree = 40 := by
      simp [runFuel, STree.size, STree.sizeList, c4AdjTree]
    simp only [get_lexical_hierarchy, runRoot, hf]
    rfl
  · have hf : runFuel c4ParTree = 40 := by
      simp [runFuel, STree.size, STree.sizeList, c4ParTree]
    simp only [get_lexical_hierarchy, runRoot, hf]
    rfl
  · have hf : runFuel c4TwoTree = 48 := by
      simp [runFuel, STree.size, STree.sizeList, c4TwoTree]
    simp only [get_lexical_hierarchy, runRoot, hf]
    rfl

/-- A module import holding a label child (a shape no parser emits, but
one on which the recursion into import children is observable). -/
def c5ImportLabel : STree := .mk .moduleImport 0 10 "" 0 true
  [.mk .label 1 4 "lbl" 0 true []]

/-- A realistically shaped module import: keyword, source string, colon
and two imported identifiers. -/
def c5ImportPlain : STree := .mk .markup 0 30 "" 0 true
  [.mk .moduleImport 0 20 "" 0 true
    [.mk .importKw 0 6 "" 0 true [], .mk .str 7 14 "a.typ" 0 true [],
     .mk .colon 14 15 "" 0 true [], .mk .ident 16 17 "x" 0 true [],
     .mk .comma 17 18 "" 0 true [], .mk .ident 19 20 "y" 0 true []]]

/-- Claim C5 counterexample: the builder does recurse into the children of
a module import (the import is never classified as a symbol, so the
non-recursion guard never applies), and a label child then contributes an
entry to the returned forest. -/
theorem c5_import_counterexample :
    get_lexical_hierarchy c5ImportLabel .Symbol
      = some [.mk ⟨"lbl", .Var .Label, 1, 4⟩ none] := by
  have hf : runFuel c5ImportLabel = 24 := by
    simp [runFuel, STree.size, STree.sizeList, c5ImportLabel]
  simp only [get_lexical_hierarchy, runRoot, hf]
  rfl

/-- Claim C5 (amended): a module import node is never itself classified as
a symbol, so the skip-children guard of the builder is unreachable and the
children of an import are traversed under the ambient (reference) context; on a
realistically shaped import the imported identifiers therefore yield no
entries. -/
theorem c5_import_no_symbol :
    (∀ (sk : LexicalScopeKind) (ictx : IdentContext) (loc : Loc) (a b : Nat)
        (s : String) (d : Nat) (co : Bool) (cs : List STree),
        get_ident sk ictx loc (.mk .moduleImport a b s d co cs) = .ok none)
    ∧ get_lexical_hierarchy c5ImportPlain .Symbol = some [] := by
  constructor
  · intro sk ictx loc a b s d co cs
    rfl
  · have hf : runFuel c5ImportPlain = 72 := by
      simp [runFuel, STree.size, STree.sizeList, c5ImportPlain]
    simp only [get_lexical_hierarchy, runRoot, hf]
    rfl

/-- Claim C6: under the symbol configuration, an identifier token is
classified entirely by the ambient naming context — function-name context
yields a function entry, variable-binding or parameter context yields a
variable entry, and reference context yields no entry — and the entry
name is the literal identifier text. -/
theorem c6_ident_classification :
    ∀ (ictx : IdentContext) (loc : Loc) (a b : Nat) (s : String) (d : Nat)
      (cs : List STree),
      get_ident .Symbol ictx loc (.mk .ident a b s d true cs)
        = .ok (match ictx with
               | .Func => some ⟨s, .Var .Function, a, b⟩
               | .Var => some ⟨s, .Var .Variable, a, b⟩
               | .Params => some ⟨s, .Var .Variable, a, b⟩
               | .Ref => none) := by
  intro ictx loc a b s d cs
  cases ictx <;> rfl

/-- A closure with no name: first child is a parameter list, the body is
an identifier. -/
def c7AnonClosure : STree := .mk .markup 0 20 "" 0 true
  [.mk .closure 2 15 "" 0 true
    [.mk .params 2 5 "" 0 true [], .mk .ident 10 11 "x" 0 true []]]

/-- A named closure: first child is the name identifier. -/
def c7NamedClosure : STree := .mk .markup 0 20 "" 0 true
  [.mk .closure 2 18 "" 0 true
    [.mk .ident 2 3 "f" 0 true [], .mk .params 3 6 "" 0 true [],
     .mk .ident 10 11 "x" 0 true []]]

/-- Another unnamed closure, led by a placeholder pattern. -/
def c7AnonClosure2 : STree := .mk .markup 0 16 "" 0 true
  [.mk .closure 1 14 "" 0 true
    [.mk .underscore 1 2 "" 0 true [], .mk .ident 5 6 "y" 0 true []]]

/-- Claim C7 counterexample: the synthesized entry for a nameless closure
is named by the literal string with angle brackets, not the bare word the
claim states. -/
theorem c7_closure_counterexample :
    get_lexical_hierarchy c7AnonClosure .Symbol
      = some [.mk ⟨"<anonymous>", .Var .Function, 2, 15⟩ none]
    ∧ "<anonymous>" ≠ "anonymous" := by
  constructor
  · have hf : runFuel c7AnonClosure = 40 := by
      simp [runFuel, STree.size, STree.sizeList, c7AnonClosure]
    simp only [get_lexical_hierarchy, runRoot, hf]
    rfl
  · decide

/-- Claim C7 (amended): for a closure with a body, if the name step
produced a function entry its range is rewritten to the whole closure
extent (not just the name token); if the name step produced no entry, an
anonymous function entry named by the angle-bracketed anonymous marker
with the full closure range is pushed instead. The first conjunct is
schematic over named-closure nodes: whatever the name text, the name
token range, the parameter list, the body and the ambient context, the
entry closed under the enclosing frame carries the closure range, not the
name range; the second is the same schematic statement for a nameless
closure under either configuration; the final two conjuncts run two such
closures through the driver. -/
theorem c7_closure_naming :
    (∀ (fuel : Nat) (ctx : IdentContext) (loc : Loc) (tinfo : LexicalInfo)
        (ca cb : Nat) (ctx2 : String) (cd : Nat) (cco : Bool)
        (a b : Nat) (s : String) (d : Nat)
        (pa pb : Nat) (ps : String) (pd : Nat) (pco : Bool) (pch : List STree)
        (a2 b2 : Nat) (s2 : String) (d2 : Nat),
        check_node (fuel + 6) ⟨.Symbol, [(tinfo, [])], ctx⟩
          (.node loc (.mk .closure ca cb ctx2 cd cco
            [.mk .ident a b s d true [],
             .mk .params pa pb ps pd pco pch,
             .mk .ident a2 b2 s2 d2 true []]))
          = (⟨.Symbol, [(tinfo, [.mk ⟨s, .Var .Function, ca, cb⟩ none])], ctx⟩, none))
    ∧ (∀ (fuel : Nat) (sk : LexicalScopeKind) (ctx : IdentContext) (loc : Loc)
        (tinfo : LexicalInfo) (ca cb : Nat) (ctx2 : String) (cd : Nat) (cco : Bool)
        (pa pb : Nat) (ps : String) (pd : Nat) (pco : Bool) (pch : List STree)
        (a2 b2 : Nat) (s2 : String) (d2 : Nat),
        check_node (fuel + 6) ⟨sk, [(tinfo, [])], ctx⟩
          (.node loc (.mk .closure ca cb ctx2 cd cco
            [.mk .params pa pb ps pd pco pch,
             .mk .ident a2 b2 s2 d2 true []]))
          = (⟨sk, [(tinfo, [.mk ⟨"<anonymous>", .Var .Function, ca, cb⟩ none])], ctx⟩, none))
    ∧ get_lexical_hierarchy c7NamedClosure .Symbol
        = some [.mk ⟨"f", .Var .Function, 2, 18⟩ none]
    ∧ get_lexical_hierarchy c7AnonClosure2 .Symbol
        = some [.mk ⟨"<anonymous>", .Var .Function, 1, 14⟩ none] := by
  refine ⟨?_, ?_, ?_, ?_⟩
  · intro fuel ctx loc tinfo ca cb ctx2 cd cco a b s d pa pb ps pd pco pch a2 b2 s2 d2
    rfl
  · intro fuel sk ctx loc tinfo ca cb ctx2 cd cco pa pb ps pd pco pch a2 b2 s2 d2
    cases sk <;> rfl
  · have hf : runFuel c7NamedClosure = 48 := by
      simp [runFuel, STree.size, STree.sizeList, c7NamedClosure]
    simp only [get_lexical_hierarchy, runRoot, hf]
    rfl
  · have hf : runFuel c7AnonClosure2 = 40 := by
      simp [runFuel, STree.size, STree.sizeList, c7AnonClosure2]
    simp only [get_lexical_hierarchy, runRoot, hf]
    rfl

/-- A worker state whose ambient context is a variable binding. -/
def c8VarState : WState := ⟨.Symbol, [(sentinel, [])], .Var⟩

/-- A field access whose base is a plain identifier. -/
def c8FieldAccess : STree := .mk .fieldAccess 0 5 "" 0 true
  [.mk .ident 0 1 "x" 0 true [], .mk .dot 1 2 "" 0 true [],
   .mk .ident 2 3 "y" 0 true []]

/-- Claim C8 counterexample: with a variable-binding ambient context, the
field-access base is not processed under that ambient context — the
traversal leaves the state untouched, whereas processing the same base
under the ambient context produces a variable entry. -/
theorem c8_context_counterexample :
    check_node 9 c8VarState (.node rootLoc c8FieldAccess) = (c8VarState, none)
    ∧ (check_node 9 c8VarState (.nodeWith rootLoc (.mk .ident 0 1 "x" 0 true [])
         c8VarState.ident_context)).1.stack
       = [(sentinel, [.mk ⟨"x", .Var .Variable, 0, 1⟩ none])] := by
  exact ⟨rfl, rfl⟩

/-- Claim C8 (amended): the field-access base (first expression child) and
the named-argument value (last expression child) are processed under the
reference context, not the ambient context: a field access over a plain
identifier base never changes the state regardless of the ambient
context, and likewise a named argument over an identifier value whenever
the ambient context is not the parameter context. -/
theorem c8_reference_context :
    (∀ (fuel : Nat) (st : WState) (loc : Loc) (fa fb : Nat) (ftx : String)
        (fd : Nat) (fco : Bool) (a b : Nat) (s : String) (d : Nat)
        (rest : List STree),
        check_node (fuel + 6) st
          (.node loc (.mk .fieldAccess fa fb ftx fd fco
            (.mk .ident a b s d true [] :: rest)))
          = (st, none))
    ∧ (∀ (fuel : Nat) (st : WState) (loc : Loc) (fa fb : Nat) (ftx : String)
        (fd : Nat) (fco : Bool) (a b : Nat) (s : String) (d : Nat),
        st.ident_context ≠ .Params →
        check_node (fuel + 6) st
          (.node loc (.mk .named fa fb ftx fd fco [.mk .ident a b s d true []]))
          = (st, none)) := by
  constructor
  · intro fuel st loc fa fb ftx fd fco a b s d rest
    obtain ⟨sk, stack, ctx⟩ := st
    cases sk <;> rfl
  · intro fuel st loc fa fb ftx fd fco a b s d hctx
    obtain ⟨sk, stack, ctx⟩ := st
    cases ctx
    case Params => exact absurd rfl hctx
    all_goals cases sk <;> rfl

/-- Claim C8 witness: concrete instances discharging the hypotheses. -/
theorem c8_reference_context_witness :
    check_node 6 c8VarState (.node rootLoc (.mk .named 0 4 "" 0 true
      [.mk .ident 0 1 "k" 0 true []])) = (c8VarState, none)
    ∧ check_node 6 c8VarState (.node rootLoc c8FieldAccess) = (c8VarState, none) := by
  constructor
  · exact c8_reference_context.2 0 c8VarState rootLoc 0 4 "" 0 true 0 1 "k" 0 (by decide)
  · exact c8_reference_context.1 0 c8VarState rootLoc 0 5 "" 0 true 0 1 "x" 0 _

/-- A lone whitespace token at the top level (for the output-kind claim). -/
def c9SpaceTree : STree := .mk .markup 0 4 "" 0 true [.mk .space 2 3 "" 0 true []]

/-- Claim C9 counterexample: a whitespace token at the top level produces
an output entry of the whitespace kind, which is not one of the four
documented kinds. -/
theorem c9_space_counterexample :
    get_lexical_hierarchy c9SpaceTree .Symbol = some [.mk ⟨"", .Space, 2, 3⟩ none]
    ∧ documentedKind .Space = false := by
  constructor
  · have hf : runFuel c9SpaceTree = 24 := by
      simp [runFuel, STree.size, STree.sizeList, c9SpaceTree]
    simp only [get_lexical_hierarchy, runRoot, hf]
    rfl
  · rfl

/-- Claim C9 (amended): every entry of a returned forest has one of the
four documented kinds or the whitespace kind; in particular the reserved
roles (value reference, label reference, bibliography key) never appear
anywhere in the output. -/
theorem c9_output_kinds :
    ∀ (t : STree) (sk : LexicalScopeKind) (f : List LexicalHierarchy),
      get_lexical_hierarchy t sk = some f → ∀ x ∈ f, KindsOk x := by
  intro t sk f h x hx
  exact (glh_frames h x hx).1

/-- Claim C9 witness: the kind invariant holds of the concrete output for
a lone-space document. -/
theorem c9_output_kinds_witness :
    KindsOk (.mk ⟨"", .Space, 2, 3⟩ none) := by
  apply c9_output_kinds c9SpaceTree .Symbol
      [.mk ⟨"", .Space, 2, 3⟩ none] ?_ _ (List.mem_singleton.2 rfl)
  have hf : runFuel c9SpaceTree = 24 := by
    simp [runFuel, STree.size, STree.sizeList, c9SpaceTree]
  simp only [get_lexical_hierarchy, runRoot, hf]
  rfl

/-- A worker state whose ambient context is the reference context. -/
def c10RefState : WState := ⟨.Symbol, [(sentinel, [])], .Ref⟩

/-- A closure whose first child is an identifier that fails its cast. -/
def c10BadClosure : STree := .mk .closure 0 9 "" 0 true
  [.mk .ident 1 2 "x" 0 false []]

/-- Claim C10 counterexample: on a hard-failure exit of the node check,
the ambient context is not restored — entering the closure switched the
context to the function-name context and the propagated cast error leaves
it there, different from the reference context the processing started
in. -/
theorem c10_restore_counterexample :
    check_node 9 c10RefState (.node rootLoc c10BadClosure)
      = ({ c10RefState with ident_context := .Func }, some .castFailed)
    ∧ ({ c10RefState with ident_context := .Func } : WState).ident_context
        ≠ c10RefState.ident_context := by
  exact ⟨rfl, by decide⟩

/-- Claim C10 (amended): the ambient naming context is restored on every
successful exit of the node check, and the context-overriding wrapper
restores it on all exits including hard failures; only an error
propagating out of the node check itself may leave the context modified
(the traversal is then aborted and the worker discarded). -/
theorem c10_context_restore :
    (∀ (fuel : Nat) (st : WState) (loc : Loc) (t : STree) (st1 : WState),
        check_node fuel st (.node loc t) = (st1, none) →
        st1.ident_context = st.ident_context)
    ∧ (∀ (fuel : Nat) (st : WState) (loc : Loc) (t : STree) (ctx : IdentContext),
        (check_node fuel st (.nodeWith loc t ctx)).1.ident_context
          = st.ident_context) := by
  constructor
  · intro fuel st loc t st1 h
    cases fuel with
    | zero => simp [check_node] at h
    | succ fuel =>
      simp only [check_node] at h
      cases hgi : get_ident st.sk st.ident_context loc t with
      | error e =>
        simp only [hgi] at h
        simp at h
      | ok own_symbol =>
        simp only [hgi] at h
        rcases hI : check_node fuel (enter_node st t) (.body loc t own_symbol)
          with ⟨s2, e2⟩
        simp only [hI] at h
        cases e2 with
        | some e => simp at h
        | none =>
          injection h with h1 h2
          rw [← h1]
  · intro fuel st loc t ctx
    cases fuel with
    | zero => rfl
    | succ fuel =>
      simp only [check_node]

/-- Claim C10 witness: a concrete successful run restoring the context. -/
theorem c10_context_restore_witness :
    (⟨.Symbol, [((⟨"", .Space, 0, 1⟩ : LexicalInfo), []), (sentinel, [])], .Ref⟩
        : WState).ident_context
      = c10RefState.ident_context :=
  c10_context_restore.1 5 c10RefState rootLoc (.mk .space 0 1 "" 0 true []) _ rfl
